import Mathlib

/-!
Verification of the address-resolution engine of `pngmapper`
(`src/frontend/src/services/geocoding.js`).

The JavaScript service is shallow-embedded: each string-rewriting regex of the
source is hand-compiled into an executable function on `List Char`, faithful to
JavaScript leftmost / greedy / lazy matching semantics for the concrete pattern
involved; the provider (`fetch`) is an explicit environment
`String → Nat → FetchOutcome` giving the provider's response to each query at
each retry index; thrown JavaScript exceptions are the `error` constructor of
`AttemptOutcome`; observable actions (provider calls, retry delays, inter-batch
delays, progress callbacks, per-address completion) are recorded in an event
trace.  `parseFloat` of the provider's coordinate strings is not modelled
(floating point); results carry the provider-reported coordinate strings.
-/

namespace Geocoding

/-! ### Character classes (JS `\s`, `\w`, `[A-Z]`, `\d`, `[A-Za-z]`) -/

/-- JavaScript `\s` (and hence the class `[\t\s]`): ASCII whitespace plus the
Unicode space characters recognized by JS regexes. -/
def isWsChar (c : Char) : Bool :=
  c = ' ' || c = '\t' || c = '\n' || c = '\r' || c.toNat = 11 || c.toNat = 12 ||
  c.toNat = 0xa0 || c.toNat = 0x1680 || (0x2000 ≤ c.toNat && c.toNat ≤ 0x200a) ||
  c.toNat = 0x2028 || c.toNat = 0x2029 || c.toNat = 0x202f || c.toNat = 0x205f ||
  c.toNat = 0x3000 || c.toNat = 0xfeff

/-- JavaScript `\d`: ASCII digits. -/
def isDigitChar (c : Char) : Bool := '0' ≤ c && c ≤ '9'

/-- The class `[A-Z]` without the `i` flag. -/
def isUpperAZ (c : Char) : Bool := 'A' ≤ c && c ≤ 'Z'

/-- The class `[a-z]` without the `i` flag. -/
def isLowerAZ (c : Char) : Bool := 'a' ≤ c && c ≤ 'z'

/-- The classes `[A-Za-z]`, and `[A-Z]` / `[a-z]` under the `i` flag. -/
def isLetterChar (c : Char) : Bool := isUpperAZ c || isLowerAZ c

/-- JavaScript word character (for `\b`): `[A-Za-z0-9_]`. -/
def isWordChar (c : Char) : Bool := isLetterChar c || isDigitChar c || c = '_'

/-- The class `[A-Z0-9]` under the `i` flag. -/
def isAlnumCI (c : Char) : Bool := isLetterChar c || isDigitChar c

/-- The class `[A-Z0-9]` without the `i` flag. -/
def isUpperDigit (c : Char) : Bool := isUpperAZ c || isDigitChar c

/-- A `\b` word boundary holds before a word character when the preceding
character (`none` at the start of the string) is not a word character. -/
def boundaryOk (prev : Option Char) : Bool :=
  match prev with
  | none => true
  | some p => !isWordChar p

/-- ASCII-case-insensitive character comparison (the `i` flag). -/
def charCI (a b : Char) : Bool := a.toLower = b.toLower

/-- Consume the literal `pat` case-insensitively from the front of `l`
(returns the remainder). -/
def stripCI : List Char → List Char → Option (List Char)
  | [], l => some l
  | _ :: _, [] => none
  | p :: ps, c :: cs => if charCI c p then stripCI ps cs else none

theorem stripCI_length : ∀ (pat l r : List Char), stripCI pat l = some r →
    r.length + pat.length = l.length := by
  intro pat
  induction pat with
  | nil => intro l r h; simp [stripCI] at h; simp [h]
  | cons p ps ih =>
    intro l r h
    cases l with
    | nil => simp [stripCI] at h
    | cons c cs =>
      simp only [stripCI] at h
      split at h
      · have := ih cs r h
        simp [List.length_cons]; omega
      · exact absurd h (by simp)

theorem length_dropWhile_le (p : Char → Bool) (l : List Char) :
    (l.dropWhile p).length ≤ l.length := by
  induction l with
  | nil => simp [List.dropWhile]
  | cons c cs ih =>
    simp only [List.dropWhile]
    split
    · exact Nat.le_trans ih (Nat.le_succ _)
    · exact Nat.le_refl _

/-! ### `String.prototype.trim` and helpers -/

/-- JavaScript `String.prototype.trim`: strip leading and trailing whitespace. -/
def jsTrim (l : List Char) : List Char :=
  ((l.dropWhile isWsChar).reverse.dropWhile isWsChar).reverse

/-- JavaScript `||` on strings: the right operand when the left is falsy
(the empty string). -/
def jsOrStr (s dflt : String) : String := if s = "" then dflt else s

/-! ### `address.replace(/[\t\s]{2,}/g, ', ')`

Each maximal run of at least two whitespace characters is replaced by a comma
and a space (greedy leftmost matching).  The scanner consumes one character per
step; `inRun` records that the current position is inside a run that has
already been replaced. -/

def collapseWsAux (inRun : Bool) : List Char → List Char
  | [] => []
  | c :: rest =>
    if isWsChar c then
      if inRun then collapseWsAux true rest
      else
        match rest with
        | d :: _ =>
          if isWsChar d then ',' :: ' ' :: collapseWsAux true rest
          else c :: collapseWsAux false rest
        | [] => [c]
    else c :: collapseWsAux false rest

def collapseWs (l : List Char) : List Char := collapseWsAux false l

/-! ### `fixZipCode`: `address.replace(/\b([A-Z]{2})\s+(\d{4})\b/g, '$1 0$2')` -/

/-- A `\b` word boundary holds after a word character when the following
input (`[]` at the end of the string) does not start with a word character. -/
def boundaryAfter (l : List Char) : Bool :=
  match l with
  | [] => true
  | e :: _ => !isWordChar e

/-- Tail of the ZIP-repair pattern after the whitespace run: exactly four
digits followed by a `\b` (end of input or a non-word character).  Returns the
four digits and the remainder. -/
def zipDigits4 : List Char → Option (Char × Char × Char × Char × List Char)
  | d1 :: d2 :: d3 :: d4 :: rest =>
    if isDigitChar d1 && isDigitChar d2 && isDigitChar d3 && isDigitChar d4 &&
        boundaryAfter rest then
      some (d1, d2, d3, d4, rest)
    else none
  | _ => none

/-- `\s+` followed by the four-digit tail: requires at least one whitespace
character, consumes the maximal whitespace run (whitespace and digits are
disjoint, so greediness is forced). -/
def zipWsRun : List Char → Option (Char × Char × Char × Char × List Char)
  | [] => none
  | c :: rest =>
    if isWsChar c then
      match rest with
      | d :: _ => if isWsChar d then zipWsRun rest else zipDigits4 rest
      | [] => none
    else none

/-- Attempt the ZIP-repair match at the current position (after the `\b`
check): two uppercase letters, whitespace, four digits, `\b`. -/
def matchZipAt : List Char → Option (Char × Char × Char × Char × Char × Char × List Char)
  | a :: b :: rest =>
    if isUpperAZ a && isUpperAZ b then
      match zipWsRun rest with
      | some (d1, d2, d3, d4, r) => some (a, b, d1, d2, d3, d4, r)
      | none => none
    else none
  | _ => none

theorem zipDigits4_length : ∀ (l : List Char) x1 x2 x3 x4 r,
    zipDigits4 l = some (x1, x2, x3, x4, r) → r.length + 4 ≤ l.length := by
  intro l x1 x2 x3 x4 r h
  unfold zipDigits4 at h
  split at h
  · split at h
    · simp only [Option.some.injEq, Prod.mk.injEq] at h
      obtain ⟨_, _, _, _, h5⟩ := h
      subst h5
      simp only [List.length_cons]
      omega
    · simp at h
  · simp at h

theorem zipWsRun_length : ∀ (l : List Char) x1 x2 x3 x4 r,
    zipWsRun l = some (x1, x2, x3, x4, r) → r.length + 5 ≤ l.length := by
  intro l
  induction l with
  | nil => intro x1 x2 x3 x4 r h; simp [zipWsRun] at h
  | cons c cs ih =>
    intro x1 x2 x3 x4 r h
    simp only [zipWsRun] at h
    split at h
    · match cs, h with
      | [], h => simp at h
      | d :: ds, h =>
        simp only at h
        split at h
        · have := ih x1 x2 x3 x4 r h
          simp only [List.length_cons] at this ⊢
          omega
        · have := zipDigits4_length (d :: ds) x1 x2 x3 x4 r h
          simp only [List.length_cons] at this ⊢
          omega
    · simp at h

theorem matchZipAt_length : ∀ (l : List Char) a b x1 x2 x3 x4 r,
    matchZipAt l = some (a, b, x1, x2, x3, x4, r) → r.length + 7 ≤ l.length := by
  intro l a b x1 x2 x3 x4 r h
  match l with
  | [] => simp [matchZipAt] at h
  | [x] => simp [matchZipAt] at h
  | x :: y :: rest =>
    simp only [matchZipAt] at h
    split at h
    · cases hz : zipWsRun rest with
      | none => rw [hz] at h; simp at h
      | some v =>
        obtain ⟨e1, e2, e3, e4, rr⟩ := v
        rw [hz] at h
        simp only [Option.some.injEq, Prod.mk.injEq] at h
        obtain ⟨_, _, _, _, _, _, h7⟩ := h
        have := zipWsRun_length rest e1 e2 e3 e4 rr hz
        subst h7
        simp only [List.length_cons]
        omega
    · simp at h

/-- Global scan for the ZIP-repair replacement, tracking the previous original
character for the leading `\b`; on a match the replacement `$1 0$2` is emitted
and scanning resumes after the match (whose last character is the fourth
digit).  `fuel` makes the recursion structural: every step consumes at least
one input character (`matchZipAt_length` below shows a match consumes at least
seven), so with `fuel = l.length` the fuel-exhausted fallback is never
reached. -/
def fixZipAux : Nat → Option Char → List Char → List Char
  | 0, _, l => l
  | fuel + 1, prev, l =>
    match l with
    | [] => []
    | c :: rest =>
      match (if boundaryOk prev then matchZipAt (c :: rest) else none) with
      | some (a, b, d1, d2, d3, d4, r) =>
        a :: b :: ' ' :: '0' :: d1 :: d2 :: d3 :: d4 :: fixZipAux fuel (some d4) r
      | none => c :: fixZipAux fuel (some c) rest

/-- `fixZipCode` from the source: add a leading zero to 4-digit ZIP codes
following a two-letter uppercase state code. -/
def fixZipCode (address : String) : String :=
  String.mk (fixZipAux address.data.length none address.data)

/-! ### Small pattern pieces shared by the `simplifyAddress` regexes -/

/-- `\s*`: consume the maximal whitespace run (possibly empty). -/
def dropWsStar (l : List Char) : List Char := l.dropWhile isWsChar

/-- `,?`: consume one comma if present. -/
def dropCommaOpt : List Char → List Char
  | ',' :: r => r
  | l => l

/-- `\.?`: consume one period if present. -/
def dropDotOpt : List Char → List Char
  | '.' :: r => r
  | l => l

/-- `p+` for a character class `p`: at least one class character, consuming the
maximal run (the following pattern piece never matches a class character, so
greediness is forced). -/
def run1 (p : Char → Bool) : List Char → Option (List Char)
  | [] => none
  | c :: rest => if p c then some (rest.dropWhile p) else none

theorem run1_lt (p : Char → Bool) : ∀ l r, run1 p l = some r → r.length < l.length := by
  intro l r h
  cases l with
  | nil => simp [run1] at h
  | cons c rest =>
    simp only [run1] at h
    split at h
    · simp only [Option.some.injEq] at h
      subst h
      exact Nat.lt_succ_of_le (length_dropWhile_le p rest)
    · simp at h

theorem dropWsStar_le (l : List Char) : (dropWsStar l).length ≤ l.length :=
  length_dropWhile_le isWsChar l

theorem dropCommaOpt_le (l : List Char) : (dropCommaOpt l).length ≤ l.length := by
  unfold dropCommaOpt
  split
  · simp only [List.length_cons]; omega
  · exact Nat.le_refl _

theorem dropDotOpt_le (l : List Char) : (dropDotOpt l).length ≤ l.length := by
  unfold dropDotOpt
  split
  · simp only [List.length_cons]; omega
  · exact Nat.le_refl _

theorem stripCI_lt (pat : List Char) (hp : pat ≠ []) :
    ∀ l r, stripCI pat l = some r → r.length < l.length := by
  intro l r h
  have := stripCI_length pat l r h
  have hlen : 0 < pat.length := List.length_pos.mpr hp
  omega

/-- Generic single-pass global `replace` for a pattern without `\b`: scan left
to right; at each position, either the pattern matches (consuming at least one
character) and `emit` is produced in its place, or one input character is
copied.  Matches the semantics of `String.prototype.replace` with the `g` flag
for the patterns below.  `fuel` makes the recursion structural: each pattern
below consumes at least one character on a match (the `_lt` theorems), so with
`fuel = l.length` the fuel-exhausted fallback is never reached. -/
def replaceScan (matchAt : List Char → Option (List Char)) (emit : List Char) :
    Nat → List Char → List Char
  | 0, l => l
  | fuel + 1, l =>
    match l with
    | [] => []
    | c :: rest =>
      match matchAt (c :: rest) with
      | some r => emit ++ replaceScan matchAt emit fuel r
      | none => c :: replaceScan matchAt emit fuel rest

/-! ### `simplifyAddress` pass 1:
`/\b(Building|Bldg\.?)\s+[A-Z0-9]+,?\s*\/gi` replaced by the empty string. -/

/-- The alternation `(Building|Bldg\.?)` (case-insensitive; `Building` cannot
match where `Bldg` does, so the alternation is deterministic). -/
def bldgKw (l : List Char) : Option (List Char) :=
  match stripCI "building".data l with
  | some r => some r
  | none =>
    match stripCI "bldg".data l with
    | some r => some (dropDotOpt r)
    | none => none

theorem bldgKw_lt : ∀ l r, bldgKw l = some r → r.length < l.length := by
  intro l r h
  unfold bldgKw at h
  split at h
  · simp only [Option.some.injEq] at h
    subst h
    exact stripCI_lt "building".data (by decide) l _ (by assumption)
  · split at h
    · simp only [Option.some.injEq] at h
      subst h
      have h1 := stripCI_lt "bldg".data (by decide) l _ (by assumption)
      exact Nat.lt_of_le_of_lt (dropDotOpt_le _) h1
    · simp at h

/-- One attempt of the `Building`/`Bldg` pattern at the current position (the
leading `\b` is checked by the caller): keyword, `\s+`, `[A-Z0-9]+` (with the
`i` flag), `,?`, `\s*`. -/
def matchBuildingAt (l : List Char) : Option (List Char) :=
  match bldgKw l with
  | none => none
  | some r1 =>
    match run1 isWsChar r1 with
    | none => none
    | some r2 =>
      match run1 isAlnumCI r2 with
      | none => none
      | some r3 => some (dropWsStar (dropCommaOpt r3))

theorem matchBuildingAt_lt : ∀ l r, matchBuildingAt l = some r → r.length < l.length := by
  intro l r h
  unfold matchBuildingAt at h
  split at h
  · simp at h
  · rename_i r1 h1
    split at h
    · simp at h
    · rename_i r2 h2
      split at h
      · simp at h
      · rename_i r3 h3
        simp only [Option.some.injEq] at h
        subst h
        have k1 := bldgKw_lt l r1 h1
        have k2 := run1_lt isWsChar r1 r2 h2
        have k3 := run1_lt isAlnumCI r2 r3 h3
        have k4 := dropCommaOpt_le r3
        have k5 := dropWsStar_le (dropCommaOpt r3)
        omega

/-- The character of the original input just before a given suffix of it (used
to re-establish the `\b` context after a replacement). -/
def lastConsumed (orig r : List Char) : Option Char :=
  (orig.take (orig.length - r.length)).getLast?

/-- Global scan for pass 1, tracking the previous original character for the
leading `\b`.  `fuel` makes the recursion structural: a match consumes at
least one character (`matchBuildingAt_lt`), so with `fuel = l.length` the
fuel-exhausted fallback is never reached. -/
def stripBuildingAux : Nat → Option Char → List Char → List Char
  | 0, _, l => l
  | fuel + 1, prev, l =>
    match l with
    | [] => []
    | c :: rest =>
      match (if boundaryOk prev then matchBuildingAt (c :: rest) else none) with
      | some r => stripBuildingAux fuel (lastConsumed (c :: rest) r) r
      | none => c :: stripBuildingAux fuel (some c) rest

/-! ### `simplifyAddress` pass 2:
`/,?\s*(Suite|Unit|Ste\.?|#)\s+[A-Z0-9]+/gi` replaced by the empty string. -/

/-- The alternation `(Suite|Unit|Ste\.?|#)` in source order (case-insensitive;
`Suite` is tried before `Ste`, and the alternatives are mutually exclusive on
any fixed input position). -/
def suiteKw (l : List Char) : Option (List Char) :=
  match stripCI "suite".data l with
  | some r => some r
  | none =>
    match stripCI "unit".data l with
    | some r => some r
    | none =>
      match stripCI "ste".data l with
      | some r => some (dropDotOpt r)
      | none =>
        match l with
        | '#' :: r => some r
        | _ => none

theorem suiteKw_lt : ∀ l r, suiteKw l = some r → r.length < l.length := by
  intro l r h
  unfold suiteKw at h
  split at h
  · simp only [Option.some.injEq] at h
    subst h
    exact stripCI_lt "suite".data (by decide) l _ (by assumption)
  · split at h
    · simp only [Option.some.injEq] at h
      subst h
      exact stripCI_lt "unit".data (by decide) l _ (by assumption)
    · split at h
      · simp only [Option.some.injEq] at h
        subst h
        have h1 := stripCI_lt "ste".data (by decide) l _ (by assumption)
        exact Nat.lt_of_le_of_lt (dropDotOpt_le _) h1
      · split at h
        · simp only [Option.some.injEq] at h
          subst h
          simp only [List.length_cons]
          omega
        · simp at h

/-- One attempt of the suite/unit pattern at the current position: `,?`, `\s*`,
keyword, `\s+`, `[A-Z0-9]+` (`i` flag). -/
def matchSuiteAt (l : List Char) : Option (List Char) :=
  match suiteKw (dropWsStar (dropCommaOpt l)) with
  | none => none
  | some r1 =>
    match run1 isWsChar r1 with
    | none => none
    | some r2 => run1 isAlnumCI r2

theorem matchSuiteAt_lt : ∀ l r, matchSuiteAt l = some r → r.length < l.length := by
  intro l r h
  unfold matchSuiteAt at h
  split at h
  · simp at h
  · rename_i r1 h1
    split at h
    · simp at h
    · rename_i r2 h2
      have k1 := suiteKw_lt _ r1 h1
      have k2 := run1_lt isWsChar r1 r2 h2
      have k3 := run1_lt isAlnumCI r2 r h
      have k4 := dropCommaOpt_le l
      have k5 := dropWsStar_le (dropCommaOpt l)
      omega

/-! ### `simplifyAddress` pass 3:
`/,?\s*[A-Z][a-z]+\s+(Gate|Ward)\s+Industrial\s+Park,?\s*\/gi`
replaced by the empty string. -/

/-- The alternation `(Gate|Ward)` (case-insensitive, first characters
distinct). -/
def parkKw (l : List Char) : Option (List Char) :=
  match stripCI "gate".data l with
  | some r => some r
  | none => stripCI "ward".data l

theorem parkKw_lt : ∀ l r, parkKw l = some r → r.length < l.length := by
  intro l r h
  unfold parkKw at h
  split at h
  · simp only [Option.some.injEq] at h
    subst h
    exact stripCI_lt "gate".data (by decide) l _ (by assumption)
  · exact stripCI_lt "ward".data (by decide) l r h

/-- One attempt of the industrial-park pattern at the current position: `,?`,
`\s*`, `[A-Z][a-z]+` (one letter then at least one more, maximal run under the
`i` flag), `\s+`, `(Gate|Ward)`, `\s+`, `Industrial`, `\s+`, `Park`, `,?`,
`\s*`. -/
def matchParkAt (l : List Char) : Option (List Char) :=
  match dropWsStar (dropCommaOpt l) with
  | [] => none
  | c :: rest =>
    if isLetterChar c then
      match run1 isLetterChar rest with
      | none => none
      | some r1 =>
        match run1 isWsChar r1 with
        | none => none
        | some r2 =>
          match parkKw r2 with
          | none => none
          | some r3 =>
            match run1 isWsChar r3 with
            | none => none
            | some r4 =>
              match stripCI "industrial".data r4 with
              | none => none
              | some r5 =>
                match run1 isWsChar r5 with
                | none => none
                | some r6 =>
                  match stripCI "park".data r6 with
                  | none => none
                  | some r7 => some (dropWsStar (dropCommaOpt r7))
    else none

theorem matchParkAt_lt : ∀ l r, matchParkAt l = some r → r.length < l.length := by
  intro l r h
  unfold matchParkAt at h
  split at h
  · simp at h
  · rename_i c rest heq
    split at h
    · split at h
      · simp at h
      · rename_i r1 h1
        split at h
        · simp at h
        · rename_i r2 h2
          split at h
          · simp at h
          · rename_i r3 h3
            split at h
            · simp at h
            · rename_i r4 h4
              split at h
              · simp at h
              · rename_i r5 h5
                split at h
                · simp at h
                · rename_i r6 h6
                  split at h
                  · simp at h
                  · rename_i r7 h7
                    simp only [Option.some.injEq] at h
                    subst h
                    have k0 : rest.length < l.length := by
                      have a1 := dropCommaOpt_le l
                      have a2 := dropWsStar_le (dropCommaOpt l)
                      have : (dropWsStar (dropCommaOpt l)).length = rest.length + 1 := by
                        rw [heq]; simp [List.length_cons]
                      omega
                    have k1 := run1_lt isLetterChar rest r1 h1
                    have k2 := run1_lt isWsChar r1 r2 h2
                    have k3 := parkKw_lt r2 r3 h3
                    have k4 := run1_lt isWsChar r3 r4 h4
                    have k5 := stripCI_lt "industrial".data (by decide) r4 r5 h5
                    have k6 := run1_lt isWsChar r5 r6 h6
                    have k7 := stripCI_lt "park".data (by decide) r6 r7 h7
                    have k8 := dropCommaOpt_le r7
                    have k9 := dropWsStar_le (dropCommaOpt r7)
                    omega
    · simp at h

/-! ### `simplifyAddress` cleanup passes:
`.replace(/,\s*,/g, ',').replace(/\s+,/g, ',').replace(/,\s+/g, ', ')` -/

/-- `/,\s*,/`: comma, optional whitespace, comma. -/
def matchCommaComma : List Char → Option (List Char)
  | ',' :: rest =>
    match dropWsStar rest with
    | ',' :: r => some r
    | _ => none
  | _ => none

theorem matchCommaComma_lt : ∀ l r, matchCommaComma l = some r → r.length < l.length := by
  intro l r h
  unfold matchCommaComma at h
  split at h
  · rename_i rest
    split at h
    · rename_i r2 heq
      simp only [Option.some.injEq] at h
      subst h
      have a1 := dropWsStar_le rest
      have : (dropWsStar rest).length = r2.length + 1 := by rw [heq]; simp [List.length_cons]
      simp only [List.length_cons]
      omega
    · simp at h
  · simp at h

/-- `/\s+,/`: at least one whitespace character (maximal run), then a comma. -/
def matchWsComma : List Char → Option (List Char)
  | [] => none
  | c :: rest =>
    if isWsChar c then
      match dropWsStar rest with
      | ',' :: r => some r
      | _ => none
    else none

theorem matchWsComma_lt : ∀ l r, matchWsComma l = some r → r.length < l.length := by
  intro l r h
  cases l with
  | nil => simp [matchWsComma] at h
  | cons c rest =>
    simp only [matchWsComma] at h
    split at h
    · split at h
      · rename_i r2 heq
        simp only [Option.some.injEq] at h
        subst h
        have a1 := dropWsStar_le rest
        have : (dropWsStar rest).length = r2.length + 1 := by rw [heq]; simp [List.length_cons]
        simp only [List.length_cons]
        omega
      · simp at h
    · simp at h

/-- `/,\s+/`: a comma then at least one whitespace character (maximal run). -/
def matchCommaWs : List Char → Option (List Char)
  | ',' :: c :: rest => if isWsChar c then some (rest.dropWhile isWsChar) else none
  | _ => none

theorem matchCommaWs_lt : ∀ l r, matchCommaWs l = some r → r.length < l.length := by
  intro l r h
  unfold matchCommaWs at h
  split at h
  · rename_i c rest
    split at h
    · simp only [Option.some.injEq] at h
      subst h
      have := length_dropWhile_le isWsChar rest
      simp only [List.length_cons]
      omega
    · simp at h
  · simp at h

/-- `simplifyAddress` from the source: strip building, suite/unit and
industrial-park designations, then collapse redundant comma/space sequences and
trim. -/
def simplifyAddress (address : String) : String :=
  let s1 := stripBuildingAux address.data.length none address.data
  let s2 := replaceScan matchSuiteAt [] s1.length s1
  let s3 := replaceScan matchParkAt [] s2.length s2
  let s4 := replaceScan matchCommaComma [','] s3.length s3
  let s5 := replaceScan matchWsComma [','] s4.length s4
  let s6 := replaceScan matchCommaWs [',', ' '] s5.length s5
  String.mk (jsTrim s6)

/-! ### Address normalization performed by `geocodeSingleAddress`:
`address.replace(/[\t\s]{2,}/g, ', ').trim()` followed by `fixZipCode`. -/

def normalizeAddress (address : String) : String :=
  fixZipCode (String.mk (jsTrim (collapseWs address.data)))

/-! ### `extractCityState` -/

/-- `String.prototype.split(/\s+/)`: split on maximal whitespace runs, with an
empty leading (resp. trailing) segment when the string starts (resp. ends) with
whitespace, and `[""]` for the empty string. -/
def splitWsAux (inRun : Bool) (cur : List Char) : List Char → List (List Char)
  | [] => [cur.reverse]
  | c :: rest =>
    if isWsChar c then
      if inRun then splitWsAux true cur rest
      else cur.reverse :: splitWsAux true [] rest
    else splitWsAux false (c :: cur) rest

def splitWsRuns (l : List Char) : List (List Char) := splitWsAux false [] l

/-- `Array.prototype.slice(-3)`: the last (up to) three elements. -/
def lastN (n : Nat) (l : List (List Char)) : List (List Char) :=
  (l.reverse.take n).reverse

/-- `beforeState.trim().split(/\s+/).slice(-3).join(' ')`: the city name taken
as the last one to three whitespace-separated words of the captured group. -/
def cityFromWords (g1 : List Char) : List Char :=
  List.intercalate [' '] (lastN 3 (splitWsRuns (jsTrim g1)))

/-- Tail of the US pattern after the lazy group:
`,?\s+([A-Z]{2})\s+\d{5}(?:-\d{4})?` — the optional `-\d{4}` suffix cannot
affect whether a match exists nor the captured state code, so it is not
examined.  Returns the two-letter state code. -/
def usTail (l : List Char) : Option (List Char) :=
  match run1 isWsChar (dropCommaOpt l) with
  | none => none
  | some r1 =>
    match r1 with
    | a :: b :: r2 =>
      if isUpperAZ a && isUpperAZ b then
        match run1 isWsChar r2 with
        | none => none
        | some r3 =>
          match r3 with
          | d1 :: d2 :: d3 :: d4 :: d5 :: _ =>
            if isDigitChar d1 && isDigitChar d2 && isDigitChar d3 && isDigitChar d4 &&
                isDigitChar d5 then
              some [a, b]
            else none
          | _ => none
      else none
    | _ => none

/-- The 13 Canadian province codes of the source, as an exact two-character
alternation. -/
def provinceCodes : List (List Char) :=
  [['O','N'], ['A','B'], ['B','C'], ['M','B'], ['N','B'], ['N','L'], ['N','S'],
   ['N','T'], ['N','U'], ['P','E'], ['Q','C'], ['S','K'], ['Y','T']]

/-- Tail of the Canadian pattern after the lazy group:
`\s+(ON|AB|...|YT)\s+[A-Z0-9]{3}\s*[A-Z0-9]{3}`.  Returns the province code. -/
def caTail (l : List Char) : Option (List Char) :=
  match run1 isWsChar l with
  | none => none
  | some r1 =>
    match r1 with
    | a :: b :: r2 =>
      if provinceCodes.contains [a, b] then
        match run1 isWsChar r2 with
        | none => none
        | some r3 =>
          match r3 with
          | x1 :: x2 :: x3 :: r4 =>
            if isUpperDigit x1 && isUpperDigit x2 && isUpperDigit x3 then
              match dropWsStar r4 with
              | y1 :: y2 :: y3 :: _ =>
                if isUpperDigit y1 && isUpperDigit y2 && isUpperDigit y3 then
                  some [a, b]
                else none
              | _ => none
            else none
          | _ => none
      else none
    | _ => none

/-- Lazy evaluation of the capture group `([A-Za-z\s]+?)` at a fixed start
position: grow the group one class character at a time, testing the given tail
pattern after each extension (shortest successful group wins, as for a lazy
quantifier).  Returns the captured group and the tail's capture. -/
def lazyG1Aux (tail : List Char → Option (List Char)) (acc : List Char) :
    List Char → Option (List Char × List Char)
  | [] => none
  | c :: rest =>
    if isLetterChar c || isWsChar c then
      match tail rest with
      | some st => some (acc ++ [c], st)
      | none => lazyG1Aux tail (acc ++ [c]) rest
    else none

/-- Leftmost match of a lazy-group pattern: try each start position from the
left. -/
def lazyFind (tail : List Char → Option (List Char)) :
    List Char → Option (List Char × List Char)
  | [] => none
  | c :: rest =>
    match lazyG1Aux tail [] (c :: rest) with
    | some res => some res
    | none => lazyFind tail rest

/-- First match of `/\d{5}(-\d{4})?/` at the current position (no word
boundaries; the optional suffix is taken greedily when fully present). -/
def zip5At : List Char → Option (List Char)
  | d1 :: d2 :: d3 :: d4 :: d5 :: rest =>
    if isDigitChar d1 && isDigitChar d2 && isDigitChar d3 && isDigitChar d4 &&
        isDigitChar d5 then
      match rest with
      | '-' :: e1 :: e2 :: e3 :: e4 :: r2 =>
        if isDigitChar e1 && isDigitChar e2 && isDigitChar e3 && isDigitChar e4 then
          some r2
        else some rest
      | _ => some rest
    else none
  | _ => none

/-- `part.replace(/\d{5}(-\d{4})?/, '')`: remove the first (leftmost) ZIP-code
occurrence, if any. -/
def removeFirstZipAux : List Char → List Char
  | [] => []
  | c :: rest =>
    match zip5At (c :: rest) with
    | some r => r
    | none => c :: removeFirstZipAux rest

/-- First match of `/\b([A-Z]{2})\b/`: two uppercase letters delimited by word
boundaries on both sides. -/
def findState2Aux (prev : Option Char) : List Char → Option (List Char)
  | [] => none
  | a :: rest =>
    if boundaryOk prev && isUpperAZ a then
      match rest with
      | b :: r2 =>
        if isUpperAZ b && boundaryAfter r2 then some [a, b]
        else findState2Aux (some a) rest
      | [] => findState2Aux (some a) rest
    else findState2Aux (some a) rest

/-- `extractCityState` from the source: US pattern, then Canadian pattern, then
the comma-split fallback. -/
def extractCityState (address : String) : Option String :=
  match lazyFind usTail address.data with
  | some (g1, st) => some (String.mk (cityFromWords g1 ++ (", ").data ++ st))
  | none =>
    match lazyFind caTail address.data with
    | some (g1, st) => some (String.mk (cityFromWords g1 ++ (", ").data ++ st))
    | none =>
      let parts := (address.data.splitOn ',').map jsTrim
      if parts.length ≥ 2 then
        let cityPart := jsTrim (removeFirstZipAux (parts.getD (parts.length - 2) []))
        let statePart := jsTrim (removeFirstZipAux (parts.getD (parts.length - 1) []))
        match findState2Aux none statePart with
        | some st => some (String.mk (cityPart ++ (", ").data ++ st))
        | none => some (String.mk (cityPart ++ (", ").data ++ statePart))
      else none

/-! ### `extractStreetCity` -/

/-- `extractStreetCity` from the source: split on commas, strip the ZIP code
from the last part; a query is produced only when there are at least three
comma-delimited parts. -/
def extractStreetCity (address : String) : Option String :=
  let parts := (address.data.splitOn ',').map jsTrim
  if parts.length ≥ 2 then
    let lastPart := jsTrim (removeFirstZipAux (parts.getD (parts.length - 1) []))
    if parts.length ≥ 3 then
      some (String.mk (parts.getD (parts.length - 2) [] ++ (", ").data ++ lastPart))
    else none
  else none

/-! ### `extractZipCode` -/

/-- Match of `/\b(\d{5})(?:-\d{4})?\b/` at the current position (after the
leading `\b`): five digits; the greedy optional `-\d{4}` is taken when it can
complete with a trailing `\b`, otherwise the trailing `\b` is checked directly
after the fifth digit.  Only the five-digit capture is returned. -/
def usZipAt : List Char → Option (List Char)
  | d1 :: d2 :: d3 :: d4 :: d5 :: rest =>
    if isDigitChar d1 && isDigitChar d2 && isDigitChar d3 && isDigitChar d4 &&
        isDigitChar d5 then
      match rest with
      | '-' :: e1 :: e2 :: e3 :: e4 :: r2 =>
        if isDigitChar e1 && isDigitChar e2 && isDigitChar e3 && isDigitChar e4 &&
            boundaryAfter r2 then
          some [d1, d2, d3, d4, d5]
        else if boundaryAfter rest then some [d1, d2, d3, d4, d5]
        else none
      | _ => if boundaryAfter rest then some [d1, d2, d3, d4, d5] else none
    else none
  | _ => none

def findUSZipAux (prev : Option Char) : List Char → Option (List Char)
  | [] => none
  | c :: rest =>
    match (if boundaryOk prev then usZipAt (c :: rest) else none) with
    | some z => some z
    | none => findUSZipAux (some c) rest

/-- Match of the Canadian postal pattern `/\b([A-Z]\d[A-Z]\s*\d[A-Z]\d)\b/` at
the current position; the capture includes the interior whitespace as
matched. -/
def caPostalAt : List Char → Option (List Char)
  | a1 :: d1 :: a2 :: rest =>
    if isUpperAZ a1 && isDigitChar d1 && isUpperAZ a2 then
      match hws : rest.dropWhile isWsChar with
      | d2 :: a3 :: d3 :: r2 =>
        if isDigitChar d2 && isUpperAZ a3 && isDigitChar d3 && boundaryAfter r2 then
          some ([a1, d1, a2] ++ rest.takeWhile isWsChar ++ [d2, a3, d3])
        else none
      | _ => none
    else none
  | _ => none

def findCAPostalAux (prev : Option Char) : List Char → Option (List Char)
  | [] => none
  | c :: rest =>
    match (if boundaryOk prev then caPostalAt (c :: rest) else none) with
    | some z => some z
    | none => findCAPostalAux (some c) rest

/-- `extractZipCode` from the source: first US ZIP, then Canadian postal
code. -/
def extractZipCode (address : String) : Option String :=
  match findUSZipAux none address.data with
  | some z => some (String.mk z)
  | none =>
    match findCAPostalAux none address.data with
    | some z => some (String.mk z)
    | none => none

/-! ### Provider model and `attemptGeocode` -/

/-- Configuration constants of the source module. -/
def MAX_RETRIES : Nat := 2

def RETRY_DELAY_MS : Nat := 2000

def BATCH_SIZE : Nat := 2

def BATCH_DELAY : Nat := 1000

/-- One element of the provider's JSON response array (`limit=1` requests at
most one).  Coordinates are the provider-reported strings (`parseFloat` is not
modelled). -/
structure ProviderMatch where
  lat : String
  lon : String
  display_name : String
deriving DecidableEq, Repr

/-- Outcome of one `fetch` of the provider URL: an HTTP response with a status
and a parsed JSON match array, or a rejected fetch (network/transport
error, which in the source surfaces as a thrown exception). -/
inductive FetchOutcome where
  | httpResponse (status : Nat) (data : List ProviderMatch)
  | transportError (msg : String)
deriving DecidableEq, Repr

/-- `response.ok`: status in the inclusive range 200–299. -/
def httpOk (status : Nat) : Bool := 200 ≤ status && status ≤ 299

/-- The provider environment: the outcome of fetching a given query at a given
retry index (`retryCount` as passed by `attemptGeocode`). -/
def FetchEnv : Type := String → Nat → FetchOutcome

/-- Result of `attemptGeocode` for the caller: a match, `null` (no match), or
a thrown error carrying the exception message. -/
inductive AttemptOutcome where
  | found (m : ProviderMatch)
  | noMatch
  | error (msg : String)
deriving DecidableEq, Repr

/-- Observable actions of the engine, in order of occurrence: a provider
request for a query (with the retry index of the attempt), the fixed delay
before a retry, the fixed delay between batches, one invocation of the
progress callback, and the completion (fulfilment) of one address's
resolution. -/
inductive GeoEvent where
  | providerCall (query : String) (retryIndex : Nat)
  | retryDelay (ms : Nat)
  | batchDelay (ms : Nat)
  | progress (completed : Nat) (total : Nat)
  | resolved (address : String)
deriving DecidableEq, Repr

/-- Body of `attemptGeocode`, structurally recursive on
`remaining = MAX_RETRIES - retryCount` (the number of retries still allowed):
`retryCount < MAX_RETRIES` holds exactly when `remaining > 0`, and the
recursive call with `retryCount + 1` has `remaining - 1 = MAX_RETRIES -
(retryCount + 1)`, so this is an exact reformulation of the source's guard,
not a fuel approximation. -/
def attemptGeocodeAux (fetch : FetchEnv) (query : String) :
    Nat → Nat → AttemptOutcome × List GeoEvent
  | retryCount, remaining =>
    match fetch query retryCount with
    | .transportError msg => (.error msg, [.providerCall query retryCount])
    | .httpResponse status data =>
      if httpOk status then
        match data with
        | [] => (.noMatch, [.providerCall query retryCount])
        | m :: _ => (.found m, [.providerCall query retryCount])
      else
        if status = 503 then
          match remaining with
          | rem + 1 =>
            let rec_result := attemptGeocodeAux fetch query (retryCount + 1) rem
            (rec_result.1,
             .providerCall query retryCount :: .retryDelay RETRY_DELAY_MS :: rec_result.2)
          | 0 => (.error ("HTTP " ++ toString status), [.providerCall query retryCount])
        else (.error ("HTTP " ++ toString status), [.providerCall query retryCount])

/-- `attemptGeocode` from the source: fetch the query; on a non-ok response
with status 503 and retries remaining (`retryCount < MAX_RETRIES`), delay and
retry the same query with `retryCount + 1`; on any other non-ok response throw
`HTTP <status>`; on an ok response return the first match or `null` for an
empty array.  A rejected fetch propagates as a thrown transport error. -/
def attemptGeocode (fetch : FetchEnv) (query : String) (retryCount : Nat) :
    AttemptOutcome × List GeoEvent :=
  attemptGeocodeAux fetch query retryCount (MAX_RETRIES - retryCount)

/-! ### `geocodeSingleAddress`: the cascading strategy chain -/

/-- The precision levels of the source (`PRECISION`). -/
inductive Precision where
  | EXACT
  | SIMPLIFIED
  | STREET
  | CITY
  | ZIPCODE
deriving DecidableEq, Repr

/-- The result object of `geocodeSingleAddress`: a single record covering both
the success and the failure shape of the source's duck-typed object (fields
absent in the source object are `none`). -/
structure GeocodeResult where
  address : String
  success : Bool
  lat : Option String
  lng : Option String
  name : Option String
  displayName : Option String
  precision : Option Precision
  note : Option String
  error : Option String
deriving DecidableEq, Repr

/-- A success result: original address, provider coordinates, `name` set to
the normalized address (as in every success branch of the source), the
provider display name, the strategy's precision, and its note. -/
def successResult (address normalized : String) (m : ProviderMatch) (p : Precision)
    (note : Option String) : GeocodeResult :=
  ⟨address, true, some m.lat, some m.lon, some normalized, some m.display_name,
   some p, note, none⟩

/-- A failure result: original address and error message only. -/
def failureResult (address msg : String) : GeocodeResult :=
  ⟨address, false, none, none, none, none, none, none, some msg⟩

def noteSimplified : String := "Building/suite designation removed for successful geocoding"

def noteStreet : String := "Matched to street/area level (less precise)"

def noteCity : String := "Matched to city/region only (approximate location)"

def noteZipcode : String := "Matched to ZIP/postal code area only (very approximate location)"

def notFoundMsg : String := "Address not found after trying all fallback strategies"

/-- Strategy 5 (ZIP/postal code), then the all-strategies-failed result. -/
def geocodeStrat5 (fetch : FetchEnv) (address normalized : String)
    (ev : List GeoEvent) : GeocodeResult × List GeoEvent :=
  match extractZipCode normalized with
  | some zipCode =>
    match attemptGeocode fetch zipCode 0 with
    | (.found m, ev5) =>
      (successResult address normalized m .ZIPCODE (some noteZipcode), ev ++ ev5)
    | (.error msg, ev5) =>
      (failureResult address (jsOrStr msg "Geocoding failed"), ev ++ ev5)
    | (.noMatch, ev5) => (failureResult address notFoundMsg, ev ++ ev5)
  | none => (failureResult address notFoundMsg, ev)

/-- Strategy 4 (city + state): attempted whenever `extractCityState` produces a
query (no comparison against previously attempted queries in the source). -/
def geocodeStrat4 (fetch : FetchEnv) (address normalized : String)
    (ev : List GeoEvent) : GeocodeResult × List GeoEvent :=
  match extractCityState normalized with
  | some cityState =>
    match attemptGeocode fetch cityState 0 with
    | (.found m, ev4) =>
      (successResult address normalized m .CITY (some noteCity), ev ++ ev4)
    | (.error msg, ev4) =>
      (failureResult address (jsOrStr msg "Geocoding failed"), ev ++ ev4)
    | (.noMatch, ev4) => geocodeStrat5 fetch address normalized (ev ++ ev4)
  | none => geocodeStrat5 fetch address normalized ev

/-- Strategy 3 (street + city): attempted when derivable and different from
both the exact and the simplified query. -/
def geocodeStrat3 (fetch : FetchEnv) (address normalized simplified : String)
    (ev : List GeoEvent) : GeocodeResult × List GeoEvent :=
  match extractStreetCity normalized with
  | some streetCity =>
    if streetCity ≠ normalized ∧ streetCity ≠ simplified then
      match attemptGeocode fetch streetCity 0 with
      | (.found m, ev3) =>
        (successResult address normalized m .STREET (some noteStreet), ev ++ ev3)
      | (.error msg, ev3) =>
        (failureResult address (jsOrStr msg "Geocoding failed"), ev ++ ev3)
      | (.noMatch, ev3) => geocodeStrat4 fetch address normalized (ev ++ ev3)
    else geocodeStrat4 fetch address normalized ev
  | none => geocodeStrat4 fetch address normalized ev

/-- Strategy 2 (simplified address): attempted when simplification changed the
normalized address. -/
def geocodeStrat2 (fetch : FetchEnv) (address normalized : String)
    (ev : List GeoEvent) : GeocodeResult × List GeoEvent :=
  let simplified := simplifyAddress normalized
  if simplified ≠ normalized then
    match attemptGeocode fetch simplified 0 with
    | (.found m, ev2) =>
      (successResult address normalized m .SIMPLIFIED (some noteSimplified), ev ++ ev2)
    | (.error msg, ev2) =>
      (failureResult address (jsOrStr msg "Geocoding failed"), ev ++ ev2)
    | (.noMatch, ev2) => geocodeStrat3 fetch address normalized simplified (ev ++ ev2)
  else geocodeStrat3 fetch address normalized simplified ev

/-- The body of `geocodeSingleAddress`: normalize, then walk strategies 1–5.
A thrown provider error at any strategy reaches the surrounding `catch` and
yields a failure result (so later strategies are abandoned); this is the
`error` case of each strategy above. -/
def geocodeSingleCore (fetch : FetchEnv) (address : String) :
    GeocodeResult × List GeoEvent :=
  let normalized := normalizeAddress address
  match attemptGeocode fetch normalized 0 with
  | (.found m, ev1) => (successResult address normalized m .EXACT none, ev1)
  | (.error msg, ev1) => (failureResult address (jsOrStr msg "Geocoding failed"), ev1)
  | (.noMatch, ev1) => geocodeStrat2 fetch address normalized ev1

/-- `geocodeSingleAddress` from the source, with a `resolved` event marking
the completion of this address's resolution (the settling of its promise). -/
def geocodeSingleAddress (fetch : FetchEnv) (address : String) :
    GeocodeResult × List GeoEvent :=
  ((geocodeSingleCore fetch address).1,
   (geocodeSingleCore fetch address).2 ++ [.resolved address])

/-! ### `geocodeAddresses`: batching, progress, inter-batch delay -/

/-- The batch partition of the source: contiguous slices of `BATCH_SIZE = 2`
(`addresses.slice(i, i + 2)` for `i = 0, 2, 4, …`), written as structural
recursion for the source's hard-coded batch size of two. -/
def toBatches : List String → List (List String)
  | [] => []
  | [a] => [[a]]
  | a :: b :: rest => [a, b] :: toBatches rest

/-- The progress-callback invocations for one batch of `k` results, entering
with `completed` addresses already counted: `(completed+1, total)` up to
`(completed+k, total)`, in batch order. -/
def progressEvents (completed total k : Nat) : List GeoEvent :=
  (List.range k).map (fun i => .progress (completed + i + 1) total)

/-- Process the batches in sequence: resolve every member of a batch
(concurrently in the source; their event interleaving is serialized here in
batch order — all members' resolutions settle before any progress callback of
the batch fires, which is the property the `Promise.all` barrier guarantees in
every interleaving), then push results and fire the progress callback once per
result, then the inter-batch delay when further batches remain. -/
def processBatches (fetch : FetchEnv) (total : Nat) (completed : Nat) :
    List (List String) → List GeocodeResult × List GeoEvent
  | [] => ([], [])
  | batch :: rest =>
    let pairs := batch.map (geocodeSingleAddress fetch)
    let results := pairs.map Prod.fst
    let evs := (pairs.map Prod.snd).flatten
    let prog := progressEvents completed total batch.length
    let tail := processBatches fetch total (completed + batch.length) rest
    (results ++ tail.1,
     evs ++ prog ++ (if rest = [] then [] else [.batchDelay BATCH_DELAY]) ++ tail.2)

/-- `geocodeAddresses` from the source: results in input order plus the event
trace. -/
def geocodeAddresses (fetch : FetchEnv) (addresses : List String) :
    List GeocodeResult × List GeoEvent :=
  processBatches fetch addresses.length 0 (toBatches addresses)

/-! ### Characterization of the strategy chain as a first-match evaluator
over an explicit ordered candidate list -/

/-- A chain candidate: the query to send, the precision tag of the strategy
that derived it, and the note attached on success. -/
abbrev Candidate := String × Precision × Option String

def simpCands (normalized simplified : String) : List Candidate :=
  if simplified ≠ normalized then [(simplified, .SIMPLIFIED, some noteSimplified)] else []

def streetCands (normalized simplified : String) : List Candidate :=
  match extractStreetCity normalized with
  | some sc =>
    if sc ≠ normalized ∧ sc ≠ simplified then [(sc, .STREET, some noteStreet)] else []
  | none => []

def cityCands (normalized : String) : List Candidate :=
  match extractCityState normalized with
  | some cs => [(cs, .CITY, some noteCity)]
  | none => []

def zipCands (normalized : String) : List Candidate :=
  match extractZipCode normalized with
  | some z => [(z, .ZIPCODE, some noteZipcode)]
  | none => []

/-- The ordered list of queries the resolver will attempt for an address,
with their guards exactly as in the source: Exact always; Simplified when it
differs from the exact query; StreetCity when derivable and different from the
exact and the simplified query; CityState and ZipCode whenever derivable (the
source performs no duplicate check for them). -/
def chainCandidates (address : String) : List Candidate :=
  let normalized := normalizeAddress address
  let simplified := simplifyAddress normalized
  (normalized, .EXACT, none) ::
    (simpCands normalized simplified ++ streetCands normalized simplified ++
     cityCands normalized ++ zipCands normalized)

/-- First-match evaluation of a candidate list: attempt candidates in order;
the first match wins with that candidate's precision and note; a thrown
provider error stops the chain with a failure; an exhausted list is the
not-found failure. -/
def runChain (fetch : FetchEnv) (address normalized : String) :
    List Candidate → GeocodeResult × List GeoEvent
  | [] => (failureResult address notFoundMsg, [])
  | (q, p, note) :: rest =>
    match attemptGeocode fetch q 0 with
    | (.found m, ev) => (successResult address normalized m p note, ev)
    | (.error msg, ev) => (failureResult address (jsOrStr msg "Geocoding failed"), ev)
    | (.noMatch, ev) =>
      ((runChain fetch address normalized rest).1,
       ev ++ (runChain fetch address normalized rest).2)

section ChainEquivalence

attribute [local irreducible] simplifyAddress normalizeAddress extractStreetCity
  extractCityState extractZipCode attemptGeocode

theorem strat5_eq (fetch : FetchEnv) (address normalized : String) (ev : List GeoEvent) :
    geocodeStrat5 fetch address normalized ev =
      ((runChain fetch address normalized (zipCands normalized)).1,
       ev ++ (runChain fetch address normalized (zipCands normalized)).2) := by
  cases hz : extractZipCode normalized with
  | none => simp [geocodeStrat5, zipCands, runChain, hz]
  | some z =>
    rcases ha : attemptGeocode fetch z 0 with ⟨out, ev5⟩
    cases out with
    | found m => simp [geocodeStrat5, zipCands, runChain, hz, ha]
    | noMatch => simp [geocodeStrat5, zipCands, runChain, hz, ha]
    | error msg => simp [geocodeStrat5, zipCands, runChain, hz, ha]

theorem strat4_eq (fetch : FetchEnv) (address normalized : String) (ev : List GeoEvent) :
    geocodeStrat4 fetch address normalized ev =
      ((runChain fetch address normalized (cityCands normalized ++ zipCands normalized)).1,
       ev ++ (runChain fetch address normalized
         (cityCands normalized ++ zipCands normalized)).2) := by
  cases hc : extractCityState normalized with
  | none => simp [geocodeStrat4, cityCands, hc, strat5_eq]
  | some cs =>
    rcases ha : attemptGeocode fetch cs 0 with ⟨out, ev4⟩
    cases out with
    | found m => simp [geocodeStrat4, cityCands, runChain, hc, ha]
    | noMatch => simp [geocodeStrat4, cityCands, runChain, hc, ha, strat5_eq]
    | error msg => simp [geocodeStrat4, cityCands, runChain, hc, ha]

theorem strat3_eq (fetch : FetchEnv) (address normalized simplified : String)
    (ev : List GeoEvent) :
    geocodeStrat3 fetch address normalized simplified ev =
      ((runChain fetch address normalized (streetCands normalized simplified ++
          cityCands normalized ++ zipCands normalized)).1,
       ev ++ (runChain fetch address normalized (streetCands normalized simplified ++
          cityCands normalized ++ zipCands normalized)).2) := by
  cases hs : extractStreetCity normalized with
  | none => simp [geocodeStrat3, streetCands, hs, strat4_eq, List.append_assoc]
  | some sc =>
    by_cases hg : sc ≠ normalized ∧ sc ≠ simplified
    · rcases ha : attemptGeocode fetch sc 0 with ⟨out, ev3⟩
      cases out with
      | found m => simp [geocodeStrat3, streetCands, runChain, hs, hg, ha]
      | noMatch =>
        simp [geocodeStrat3, streetCands, runChain, hs, hg, ha, strat4_eq,
          List.append_assoc]
      | error msg => simp [geocodeStrat3, streetCands, runChain, hs, hg, ha]
    · simp [geocodeStrat3, streetCands, hs, hg, strat4_eq, List.append_assoc]

theorem strat2_eq (fetch : FetchEnv) (address normalized : String) (ev : List GeoEvent) :
    geocodeStrat2 fetch address normalized ev =
      ((runChain fetch address normalized
          (simpCands normalized (simplifyAddress normalized) ++
           streetCands normalized (simplifyAddress normalized) ++
           cityCands normalized ++ zipCands normalized)).1,
       ev ++ (runChain fetch address normalized
          (simpCands normalized (simplifyAddress normalized) ++
           streetCands normalized (simplifyAddress normalized) ++
           cityCands normalized ++ zipCands normalized)).2) := by
  by_cases hg : simplifyAddress normalized ≠ normalized
  · rcases ha : attemptGeocode fetch (simplifyAddress normalized) 0 with ⟨out, ev2⟩
    cases out with
    | found m => simp [geocodeStrat2, simpCands, runChain, hg, ha]
    | noMatch =>
      simp [geocodeStrat2, simpCands, runChain, hg, ha, strat3_eq, List.append_assoc]
    | error msg => simp [geocodeStrat2, simpCands, runChain, hg, ha]
  · simp [geocodeStrat2, simpCands, hg, strat3_eq, List.append_assoc]

/-- The resolver body is exactly first-match evaluation of the candidate
list. -/
theorem geocodeSingleCore_eq_runChain (fetch : FetchEnv) (address : String) :
    geocodeSingleCore fetch address =
      runChain fetch address (normalizeAddress address) (chainCandidates address) := by
  rcases ha : attemptGeocode fetch (normalizeAddress address) 0 with ⟨out, ev1⟩
  cases out with
  | found m => simp [geocodeSingleCore, chainCandidates, runChain, ha]
  | noMatch => simp [geocodeSingleCore, chainCandidates, runChain, ha, strat2_eq]
  | error msg => simp [geocodeSingleCore, chainCandidates, runChain, ha]

end ChainEquivalence

/-! ### Structural facts about `runChain` results -/

theorem runChain_address (fetch : FetchEnv) (addr norm : String) :
    ∀ cands, (runChain fetch addr norm cands).1.address = addr := by
  intro cands
  induction cands with
  | nil => simp [runChain, failureResult]
  | cons c rest ih =>
    rcases c with ⟨q, p, note⟩
    rcases ha : attemptGeocode fetch q 0 with ⟨out, ev⟩
    cases out <;> simp [runChain, ha, successResult, failureResult, ih]

theorem runChain_shape (fetch : FetchEnv) (addr norm : String) :
    ∀ cands, (runChain fetch addr norm cands).1.success = true ∨
      ((runChain fetch addr norm cands).1.success = false ∧
       (runChain fetch addr norm cands).1.error ≠ none) := by
  intro cands
  induction cands with
  | nil => right; simp [runChain, failureResult]
  | cons c rest ih =>
    rcases c with ⟨q, p, note⟩
    rcases ha : attemptGeocode fetch q 0 with ⟨out, ev⟩
    cases out with
    | found m => left; simp [runChain, ha, successResult]
    | noMatch =>
      rcases ih with h | h
      · left; simp [runChain, ha, h]
      · right; simp [runChain, ha, h.1, h.2]
    | error msg => right; simp [runChain, ha, failureResult]

theorem runChain_name (fetch : FetchEnv) (addr norm : String) :
    ∀ cands, (runChain fetch addr norm cands).1.success = true →
      (runChain fetch addr norm cands).1.name = some norm := by
  intro cands
  induction cands with
  | nil => intro h; simp [runChain, failureResult] at h
  | cons c rest ih =>
    rcases c with ⟨q, p, note⟩
    rcases ha : attemptGeocode fetch q 0 with ⟨out, ev⟩
    cases out with
    | found m => intro _; simp [runChain, ha, successResult]
    | noMatch => intro h; simp only [runChain, ha] at h ⊢; exact ih h
    | error msg => intro h; simp [runChain, ha, failureResult] at h

/-- First-match semantics: if the first `k` candidates produce no match and
candidate `k` produces a match `m`, the chain's result is the success built
from candidate `k`. -/
theorem runChain_first_found (fetch : FetchEnv) (addr norm : String) :
    ∀ (cands : List Candidate) (k : Nat) (hk : k < cands.length) (m : ProviderMatch),
      (∀ j, (hj : j < k) → (attemptGeocode fetch ((cands.get ⟨j, by omega⟩)).1 0).1 = .noMatch) →
      (attemptGeocode fetch ((cands.get ⟨k, hk⟩)).1 0).1 = .found m →
      (runChain fetch addr norm cands).1 =
        successResult addr norm m ((cands.get ⟨k, hk⟩)).2.1 ((cands.get ⟨k, hk⟩)).2.2 := by
  intro cands
  induction cands with
  | nil => intro k hk; simp at hk
  | cons c rest ih =>
    intro k hk m hprev hfound
    rcases c with ⟨q, p, note⟩
    cases k with
    | zero =>
      rcases ha : attemptGeocode fetch q 0 with ⟨out, ev⟩
      simp only [List.get] at hfound
      rw [ha] at hfound
      simp only at hfound
      subst hfound
      simp [runChain, ha]
    | succ k =>
      have h0 : (attemptGeocode fetch q 0).1 = .noMatch := by
        have := hprev 0 (Nat.succ_pos k)
        simpa using this
      rcases ha : attemptGeocode fetch q 0 with ⟨out, ev⟩
      rw [ha] at h0
      simp only at h0
      subst h0
      have hk2 : k < rest.length := by simpa using hk
      have := ih k hk2 m
        (fun j hj => by
          have := hprev (j + 1) (Nat.succ_lt_succ hj)
          simpa using this)
        (by simpa using hfound)
      simp only [runChain, ha]
      simpa using this

/-! ### Facts about `attemptGeocode` traces and errors -/

/-- Projection of a progress event. -/
def progressOf : GeoEvent → Option (Nat × Nat)
  | .progress c t => some (c, t)
  | _ => none

/-- Events an `attemptGeocode` call can emit. -/
def isCallOrDelay : GeoEvent → Bool
  | .providerCall _ _ => true
  | .retryDelay _ => true
  | _ => false

theorem attemptAux_facts (fetch : FetchEnv) (q : String) :
    ∀ (remaining r : Nat),
      (∀ e ∈ (attemptGeocodeAux fetch q r remaining).2, isCallOrDelay e = true) ∧
      (∀ msg, (attemptGeocodeAux fetch q r remaining).1 = .error msg →
        ∃ r2, r ≤ r2 ∧ ((∃ em, fetch q r2 = .transportError em) ∨
          (∃ s d, fetch q r2 = .httpResponse s d ∧ httpOk s = false))) := by
  intro remaining
  induction remaining with
  | zero =>
    intro r
    rw [attemptGeocodeAux]
    cases hf : fetch q r with
    | transportError msg =>
      refine ⟨?_, ?_⟩
      · intro e he; simp at he; subst he; rfl
      · intro msg2 _; exact ⟨r, Nat.le_refl r, Or.inl ⟨msg, hf⟩⟩
    | httpResponse status data =>
      by_cases hok : httpOk status
      · cases data with
        | nil =>
          refine ⟨?_, ?_⟩
          · intro e he; simp [hok] at he; subst he; rfl
          · intro msg2 h2; simp [hok] at h2
        | cons m ms =>
          refine ⟨?_, ?_⟩
          · intro e he; simp [hok] at he; subst he; rfl
          · intro msg2 h2; simp [hok] at h2
      · refine ⟨?_, ?_⟩
        · intro e he; simp [hok] at he; subst he; rfl
        · intro msg2 _
          exact ⟨r, Nat.le_refl r, Or.inr ⟨status, data, hf, by simpa using hok⟩⟩
  | succ rem ih =>
    intro r
    rw [attemptGeocodeAux]
    cases hf : fetch q r with
    | transportError msg =>
      refine ⟨?_, ?_⟩
      · intro e he; simp at he; subst he; rfl
      · intro msg2 _; exact ⟨r, Nat.le_refl r, Or.inl ⟨msg, hf⟩⟩
    | httpResponse status data =>
      by_cases hok : httpOk status
      · cases data with
        | nil =>
          refine ⟨?_, ?_⟩
          · intro e he; simp [hok] at he; subst he; rfl
          · intro msg2 h2; simp [hok] at h2
        | cons m ms =>
          refine ⟨?_, ?_⟩
          · intro e he; simp [hok] at he; subst he; rfl
          · intro msg2 h2; simp [hok] at h2
      · by_cases h503 : status = 503
        · have hrec := ih (r + 1)
          refine ⟨?_, ?_⟩
          · intro e he
            simp only [if_neg hok, if_pos h503, List.mem_cons] at he
            rcases he with he | he | he
            · subst he; rfl
            · subst he; rfl
            · exact hrec.1 e he
          · intro msg2 h2
            simp only [if_neg hok, if_pos h503] at h2
            obtain ⟨r2, hr2, hout⟩ := hrec.2 msg2 h2
            exact ⟨r2, by omega, hout⟩
        · refine ⟨?_, ?_⟩
          · intro e he; simp [hok, h503] at he; subst he; rfl
          · intro msg2 _
            exact ⟨r, Nat.le_refl r, Or.inr ⟨status, data, hf, by simpa using hok⟩⟩

theorem attempt_events (fetch : FetchEnv) (q : String) (r : Nat) :
    ∀ e ∈ (attemptGeocode fetch q r).2, isCallOrDelay e = true := by
  have := (attemptAux_facts fetch q (MAX_RETRIES - r) r).1
  simpa [attemptGeocode] using this

theorem attempt_error_cause (fetch : FetchEnv) (q : String) (r : Nat) (msg : String) :
    (attemptGeocode fetch q r).1 = .error msg →
      ∃ r2, r ≤ r2 ∧ ((∃ em, fetch q r2 = .transportError em) ∨
        (∃ s d, fetch q r2 = .httpResponse s d ∧ httpOk s = false)) := by
  have := (attemptAux_facts fetch q (MAX_RETRIES - r) r).2 msg
  simpa [attemptGeocode] using this

/-- Every `attemptGeocode` call records the provider request for its own query
and retry index (it is the first event of the attempt's trace). -/
theorem attempt_call_mem (fetch : FetchEnv) (q : String) (r : Nat) :
    GeoEvent.providerCall q r ∈ (attemptGeocode fetch q r).2 := by
  rw [attemptGeocode, attemptGeocodeAux]
  cases hf : fetch q r with
  | transportError msg => simp
  | httpResponse status data =>
    by_cases hok : httpOk status
    · cases data <;> simp [hok]
    · by_cases h503 : status = 503
      · subst h503
        cases hrem : MAX_RETRIES - r with
        | zero => simp [hok, hrem]
        | succ rem => simp [hok, hrem]
      · simp [hok, h503]

theorem filterMap_progress_nil :
    ∀ l : List GeoEvent, (∀ e ∈ l, isCallOrDelay e = true) → l.filterMap progressOf = [] := by
  intro l
  induction l with
  | nil => intro _; rfl
  | cons e rest ih =>
    intro h
    have he := h e (List.mem_cons_self e rest)
    have hrest := ih (fun x hx => h x (List.mem_cons_of_mem e hx))
    cases e <;> simp [isCallOrDelay] at he <;> simp [List.filterMap_cons, progressOf, hrest]

theorem runChain_no_progress (fetch : FetchEnv) (addr norm : String) :
    ∀ cands, (runChain fetch addr norm cands).2.filterMap progressOf = [] := by
  intro cands
  induction cands with
  | nil => simp [runChain]
  | cons c rest ih =>
    rcases c with ⟨q, p, note⟩
    rcases ha : attemptGeocode fetch q 0 with ⟨out, ev⟩
    have hev : ev.filterMap progressOf = [] := by
      have := attempt_events fetch q 0
      rw [ha] at this
      exact filterMap_progress_nil ev this
    cases out with
    | found m => simp [runChain, ha, hev]
    | noMatch => simp [runChain, ha, List.filterMap_append, hev, ih]
    | error msg => simp [runChain, ha, hev]

theorem single_no_progress (fetch : FetchEnv) (a : String) :
    (geocodeSingleAddress fetch a).2.filterMap progressOf = [] := by
  have hcore := geocodeSingleCore_eq_runChain fetch a
  have := runChain_no_progress fetch a (normalizeAddress a) (chainCandidates a)
  simp [geocodeSingleAddress, hcore, List.filterMap_append, this, progressOf]

/-! ### Batch partition and batch processing -/

theorem toBatches_flatten : ∀ l : List String, (toBatches l).flatten = l
  | [] => by simp [toBatches]
  | [a] => by simp [toBatches]
  | a :: b :: rest => by simp [toBatches, toBatches_flatten rest]

theorem processBatches_results (fetch : FetchEnv) (total : Nat) :
    ∀ (bs : List (List String)) (c : Nat),
      (processBatches fetch total c bs).1 =
        bs.flatten.map (fun a => (geocodeSingleAddress fetch a).1) := by
  intro bs
  induction bs with
  | nil => intro c; simp [processBatches]
  | cons b rest ih =>
    intro c
    simp [processBatches, ih, List.map_map]

/-- Results of `geocodeAddresses` are exactly the per-address resolutions, in
input order, independent of batching. -/
theorem geocodeAddresses_results (fetch : FetchEnv) (addresses : List String) :
    (geocodeAddresses fetch addresses).1 =
      addresses.map (fun a => (geocodeSingleAddress fetch a).1) := by
  rw [geocodeAddresses, processBatches_results, toBatches_flatten]

theorem progressEvents_filterMap (c total k : Nat) :
    (progressEvents c total k).filterMap progressOf =
      (List.range k).map (fun i => (c + i + 1, total)) := by
  unfold progressEvents
  rw [List.filterMap_map]
  have h1 : (progressOf ∘ fun i => GeoEvent.progress (c + i + 1) total) =
      some ∘ (fun i => (c + i + 1, total)) := by
    funext i; rfl
  rw [h1, List.filterMap_eq_map]

theorem processBatches_progress (fetch : FetchEnv) (total : Nat) :
    ∀ (bs : List (List String)) (c : Nat),
      (processBatches fetch total c bs).2.filterMap progressOf =
        (List.range bs.flatten.length).map (fun i => (c + i + 1, total)) := by
  intro bs
  induction bs with
  | nil => intro c; simp [processBatches]
  | cons b rest ih =>
    intro c
    have hbatch : ((b.map (geocodeSingleAddress fetch)).map Prod.snd).flatten.filterMap
        progressOf = [] := by
      induction b with
      | nil => simp
      | cons a as iha =>
        simp only [List.map_cons, List.flatten_cons, List.filterMap_append]
        rw [single_no_progress, iha]
        rfl
    have hdelay : ∀ rest2 : List (List String),
        ((if rest2 = ([] : List (List String)) then ([] : List GeoEvent)
          else [GeoEvent.batchDelay BATCH_DELAY]).filterMap progressOf) = [] := by
      intro rest2
      by_cases h : rest2 = ([] : List (List String)) <;> simp [h, progressOf]
    simp only [processBatches, List.flatten_cons, List.filterMap_append,
      List.length_append, List.length_map]
    rw [hbatch, progressEvents_filterMap, ih (c + b.length), hdelay]
    rw [List.range_add, List.map_append, List.map_map]
    simp only [List.nil_append, List.append_nil]
    have heq : ((fun i => (c + i + 1, total)) ∘ fun x => b.length + x) =
        fun i => (c + b.length + i + 1, total) := by
      funext i
      simp only [Function.comp_apply]
      have h3 : c + (b.length + i) + 1 = c + b.length + i + 1 := by omega
      rw [h3]
    rw [heq]

/-- Progress callbacks over a whole run: exactly one per address, with
completed counts `1, 2, …, n` in order and the total fixed at `n`. -/
theorem geocodeAddresses_progress (fetch : FetchEnv) (addresses : List String) :
    (geocodeAddresses fetch addresses).2.filterMap progressOf =
      (List.range addresses.length).map (fun i => (i + 1, addresses.length)) := by
  rw [geocodeAddresses, processBatches_progress, toBatches_flatten]
  simp

/-! ### Claim-specific observables and provider stubs -/

/-- The queries attempted at strategy level for one address, in order: the
provider calls with retry index 0 (retries of the same strategy's query carry
retry index 1 or 2). -/
def strategyQueries (fetch : FetchEnv) (address : String) : List String :=
  (geocodeSingleAddress fetch address).2.filterMap
    (fun e => match e with
      | .providerCall q 0 => some q
      | _ => none)

/-- Spec-side check (from the claim's words, not the source) that each
address's progress callback fires as soon as that address's resolution is
known: every `resolved` event is immediately followed by a `progress`
event. -/
def progressImmediate : List GeoEvent → Bool
  | [] => true
  | .resolved _ :: rest =>
    match rest with
    | .progress _ _ :: _ => progressImmediate rest
    | _ => false
  | _ :: rest => progressImmediate rest

/-- Substring test (`String.prototype.includes`). -/
def containsSub (pat : List Char) : List Char → Bool
  | [] => pat.isEmpty
  | c :: rest => pat.isPrefixOf (c :: rest) || containsSub pat rest

/-- Provider stub: every query gets an ok response with no matches. -/
def fetchEmpty : FetchEnv := fun _ _ => .httpResponse 200 []

def sampleMatch : ProviderMatch :=
  ⟨"41.8781", "-87.6298", "Chicago, Cook County, Illinois, USA"⟩

/-- Provider stub: every query matches immediately. -/
def fetchAllMatch : FetchEnv := fun _ _ => .httpResponse 200 [sampleMatch]

/-- Provider stub: transient 503 on the first two attempts of any query, then
a match. -/
def fetchTransientTwice : FetchEnv := fun _ r =>
  if r < 2 then .httpResponse 503 [] else .httpResponse 200 [sampleMatch]

/-- Provider stub: every attempt gets a 503. -/
def fetchAlways503 : FetchEnv := fun _ _ => .httpResponse 503 []

/-- Provider stub: every fetch rejects with a transport error. -/
def fetchTransport : FetchEnv := fun _ _ => .transportError "Failed to fetch"

/-- Provider stub: only the simplified form of the C4 counterexample address
matches. -/
def fetchSimplifiedOnly : FetchEnv := fun q _ =>
  if q = "100 Main St, Springfield" then .httpResponse 200 [sampleMatch]
  else .httpResponse 200 []

/-! ### Claim theorems -/

/-- Claim C1: for every provider environment and every input sequence of
addresses, `geocodeAddresses` returns exactly one result per input address and
the result at every position carries the original input address string
verbatim (so the result list's `address` projection is the input list
itself). -/
theorem C1_results_length_and_verbatim_address (fetch : FetchEnv)
    (addresses : List String) :
    (geocodeAddresses fetch addresses).1.length = addresses.length ∧
    (geocodeAddresses fetch addresses).1.map GeocodeResult.address = addresses := by
  have hres := geocodeAddresses_results fetch addresses
  have haddr : ∀ a : String, (geocodeSingleAddress fetch a).1.address = a := by
    intro a
    have h := geocodeSingleCore_eq_runChain fetch a
    simp only [geocodeSingleAddress, h]
    exact runChain_address fetch a (normalizeAddress a) (chainCandidates a)
  constructor
  · rw [hres, List.length_map]
  · rw [hres, List.map_map]
    have hfun : (GeocodeResult.address ∘ fun a => (geocodeSingleAddress fetch a).1) = id := by
      funext a
      simp [Function.comp, haddr a]
    rw [hfun, List.map_id]

/-- Claim C2: resolution never throws out of `geocodeAddresses` — whatever the
provider environment does for any query (empty match array, transient 503,
hard HTTP error, transport error), every address resolves to a well-formed
Success (`success = true`) or Failure (`success = false` with an error
message), and each position of the output is exactly that address's own
resolution, so one address's failure never changes nor aborts the processing
of any other address or batch. -/
theorem C2_no_throw_no_abort (fetch : FetchEnv) (addresses : List String) :
    ((geocodeAddresses fetch addresses).1 =
      addresses.map (fun a => (geocodeSingleAddress fetch a).1)) ∧
    (∀ a : String, (geocodeSingleAddress fetch a).1.success = true ∨
      ((geocodeSingleAddress fetch a).1.success = false ∧
       (geocodeSingleAddress fetch a).1.error ≠ none)) := by
  refine ⟨geocodeAddresses_results fetch addresses, ?_⟩
  intro a
  have h := geocodeSingleCore_eq_runChain fetch a
  simp only [geocodeSingleAddress, h]
  exact runChain_shape fetch a (normalizeAddress a) (chainCandidates a)

/-- Claim C10: for the empty input list, `geocodeAddresses` returns an empty
result list with an empty event trace — no provider request, no inter-batch
delay and no progress-callback invocation occur. -/
theorem C10_empty_input (fetch : FetchEnv) : geocodeAddresses fetch [] = ([], []) := rfl

/-- Claim C9: normalization first replaces whitespace runs of length at least
two by a comma and space and trims, then applies the ZIP repair, which inserts
a leading zero into every occurrence of a two-letter uppercase code followed
by a four-digit number; in particular `"Phoenix AZ 1234"` normalizes to a
string containing `"AZ 01234"`, a tab run becomes `", "` before the ZIP
repair, and the repair applies to every occurrence. -/
theorem C9_normalization_order_and_zip_repair (address : String) :
    (normalizeAddress address = fixZipCode (String.mk (jsTrim (collapseWs address.data)))) ∧
    containsSub ("AZ 01234").data (normalizeAddress "Phoenix AZ 1234").data = true ∧
    normalizeAddress "Phoenix\t\tAZ 1234" = "Phoenix, AZ 01234" ∧
    fixZipCode "AB 1234 CD 5678" = "AB 01234 CD 05678" := by
  refine ⟨rfl, by decide, by decide, by decide⟩

/-- Claim C8 (evaluation at the failing input): the source's own documented
example shape `"street city, ST ZIP"` has exactly two comma-delimited
segments, and `extractStreetCity` returns `null` for it — a street+city query
is derived only from three or more segments, as the third conjunct shows. -/
theorem C8_streetcity_two_segments_returns_none :
    (("123 Street Name City, IL 62704").data.splitOn ',').length = 2 ∧
    extractStreetCity "123 Street Name City, IL 62704" = none ∧
    extractStreetCity "1 A St, Springfield, IL 62704" = some "Springfield, IL" := by
  refine ⟨by decide, by decide, by decide⟩

/-- Claim C5 counterexample: with two addresses and a never-matching provider,
the first address's resolution completes (its promise settles) before the
second address's provider call, yet its progress callback fires only after the
whole batch — the claim's "as soon as that address's resolution is known" is
violated on this input. -/
theorem C5_counterexample :
    (geocodeAddresses fetchEmpty ["A", "B"]).2 =
      [.providerCall "A" 0, .resolved "A", .providerCall "B" 0, .resolved "B",
       .progress 1 2, .progress 2 2] ∧
    progressImmediate (geocodeAddresses fetchEmpty ["A", "B"]).2 = false := by
  refine ⟨by decide, by decide⟩

/-- Claim C5 as amended: over a whole run of `n` addresses the progress
callback is invoked exactly once per address, in input order after the
address's batch has completed, with completed counts `1, 2, …, n` (strictly
increasing) and the total fixed at `n`. -/
theorem C5_amended_progress_once_per_address (fetch : FetchEnv)
    (addresses : List String) :
    (geocodeAddresses fetch addresses).2.filterMap progressOf =
      (List.range addresses.length).map (fun i => (i + 1, addresses.length)) :=
  geocodeAddresses_progress fetch addresses

/-- Claim C3 counterexample: for the address `"Chicago, IL"` with a provider
that never matches, the CityState strategy derives exactly the already
attempted Exact query and the source still issues a second provider call for
it — a strategy whose derived query is identical to an already-attempted query
is not always skipped. -/
theorem C3_counterexample :
    strategyQueries fetchEmpty "Chicago, IL" = ["Chicago, IL", "Chicago, IL"] ∧
    ((strategyQueries fetchEmpty "Chicago, IL").Nodup → False) := by
  refine ⟨by decide, by decide⟩

/-- Claim C3 as amended: the resolver walks the five strategies in order as
first-match evaluation of `chainCandidates` — Simplified is skipped when equal
to the Exact query, StreetCity when underivable or equal to the Exact or
Simplified query, while CityState and ZipCode are attempted whenever derivable
(even when equal to an earlier query); the first candidate with at least one
provider match yields the unique Success, tagged with exactly that candidate's
precision level, and no later candidate is attempted. -/
theorem C3_amended_first_match_chain (fetch : FetchEnv) (address : String) :
    (geocodeSingleAddress fetch address =
      ((runChain fetch address (normalizeAddress address) (chainCandidates address)).1,
       (runChain fetch address (normalizeAddress address) (chainCandidates address)).2 ++
         [.resolved address])) ∧
    (∀ (cands : List Candidate) (k : Nat) (hk : k < cands.length) (m : ProviderMatch),
      (∀ j, (hj : j < k) →
        (attemptGeocode fetch ((cands.get ⟨j, by omega⟩)).1 0).1 = .noMatch) →
      (attemptGeocode fetch ((cands.get ⟨k, hk⟩)).1 0).1 = .found m →
      (runChain fetch address (normalizeAddress address) cands).1 =
        successResult address (normalizeAddress address) m ((cands.get ⟨k, hk⟩)).2.1
          ((cands.get ⟨k, hk⟩)).2.2) := by
  constructor
  · have h := geocodeSingleCore_eq_runChain fetch address
    simp [geocodeSingleAddress, h]
  · intro cands k hk m hprev hfound
    exact runChain_first_found fetch address (normalizeAddress address) cands k hk m
      hprev hfound

theorem C3_amended_first_match_chain_witness :
    (geocodeSingleAddress fetchEmpty "Chicago, IL" =
      ((runChain fetchEmpty "Chicago, IL" (normalizeAddress "Chicago, IL")
          (chainCandidates "Chicago, IL")).1,
       (runChain fetchEmpty "Chicago, IL" (normalizeAddress "Chicago, IL")
          (chainCandidates "Chicago, IL")).2 ++ [.resolved "Chicago, IL"])) ∧
    (runChain fetchSimplifiedOnly "W" (normalizeAddress "W")
        [("a", .EXACT, none),
         ("100 Main St, Springfield", .SIMPLIFIED, some noteSimplified)]).1 =
      successResult "W" (normalizeAddress "W") sampleMatch .SIMPLIFIED
        (some noteSimplified) := by
  refine ⟨(C3_amended_first_match_chain fetchEmpty "Chicago, IL").1, ?_⟩
  have h := (C3_amended_first_match_chain fetchSimplifiedOnly "W").2
    [("a", .EXACT, none), ("100 Main St, Springfield", .SIMPLIFIED, some noteSimplified)]
    1 (by decide) sampleMatch
    (by
      intro j hj
      have hj0 : j = 0 := by omega
      subst hj0
      rfl)
    (by rfl)
  simpa using h

/-- Claim C4 counterexample: for the address
`"100 Main St, Suite 5, Springfield"` with a provider matching only the
simplified query, the Success is produced by the Simplified strategy whose
provider query — visible as the second provider call of the trace — is
`"100 Main St, Springfield"`, yet the result's `name` component is the
(unsimplified) normalized address, not the query actually sent. -/
theorem C4_counterexample :
    ((geocodeSingleAddress fetchSimplifiedOnly
        "100 Main St, Suite 5, Springfield").1.success = true) ∧
    ((geocodeSingleAddress fetchSimplifiedOnly
        "100 Main St, Suite 5, Springfield").1.precision = some .SIMPLIFIED) ∧
    ((geocodeSingleAddress fetchSimplifiedOnly
        "100 Main St, Suite 5, Springfield").2 =
      [.providerCall "100 Main St, Suite 5, Springfield" 0,
       .providerCall "100 Main St, Springfield" 0,
       .resolved "100 Main St, Suite 5, Springfield"]) ∧
    ((geocodeSingleAddress fetchSimplifiedOnly
        "100 Main St, Suite 5, Springfield").1.name =
      some "100 Main St, Suite 5, Springfield") ∧
    ("100 Main St, Suite 5, Springfield" ≠ ("100 Main St, Springfield" : String)) := by
  refine ⟨by decide, by decide, by decide, by decide, by decide⟩

/-- Claim C4 as amended: every Success result's query/name component is the
normalized input address, regardless of which strategy produced the match
(every success branch of the source stores `name: normalized`). -/
theorem C4_amended_name_is_normalized (fetch : FetchEnv) (address : String) :
    (geocodeSingleAddress fetch address).1.success = true →
    (geocodeSingleAddress fetch address).1.name = some (normalizeAddress address) := by
  intro hs
  have h := geocodeSingleCore_eq_runChain fetch address
  simp only [geocodeSingleAddress, h] at hs ⊢
  exact runChain_name fetch address (normalizeAddress address) (chainCandidates address) hs

theorem C4_amended_name_is_normalized_witness :
    (geocodeSingleAddress fetchAllMatch "Chicago, IL").1.success = true ∧
    (geocodeSingleAddress fetchAllMatch "Chicago, IL").1.name =
      some (normalizeAddress "Chicago, IL") :=
  ⟨by decide, C4_amended_name_is_normalized fetchAllMatch "Chicago, IL" (by decide)⟩

/-- Claim C6: a 503 (service-unavailable) response triggers a fixed
`RETRY_DELAY_MS` delay and a retry of the same query while
`retryCount < MAX_RETRIES = 2`; a provider that is transient exactly twice and
then matches yields Success after exactly 2 retries (3 provider calls, 2 retry
delays); a provider that is always transient exhausts the bound and surfaces
the transient `HTTP 503` failure after the same 3 calls. -/
theorem C6_transient_retry_bounded (fetch : FetchEnv) (q : String)
    (d : List ProviderMatch) (m : ProviderMatch) (tl : List ProviderMatch) :
    (∀ r, r < MAX_RETRIES → fetch q r = .httpResponse 503 d →
      attemptGeocode fetch q r =
        ((attemptGeocode fetch q (r + 1)).1,
         .providerCall q r :: .retryDelay RETRY_DELAY_MS ::
           (attemptGeocode fetch q (r + 1)).2)) ∧
    (fetch q 0 = .httpResponse 503 d → fetch q 1 = .httpResponse 503 d →
      fetch q 2 = .httpResponse 200 (m :: tl) →
      attemptGeocode fetch q 0 =
        (.found m,
         [.providerCall q 0, .retryDelay RETRY_DELAY_MS, .providerCall q 1,
          .retryDelay RETRY_DELAY_MS, .providerCall q 2])) ∧
    ((∀ r, r ≤ MAX_RETRIES → fetch q r = .httpResponse 503 d) →
      attemptGeocode fetch q 0 =
        (.error "HTTP 503",
         [.providerCall q 0, .retryDelay RETRY_DELAY_MS, .providerCall q 1,
          .retryDelay RETRY_DELAY_MS, .providerCall q 2])) := by
  have step : ∀ r, r < MAX_RETRIES → fetch q r = .httpResponse 503 d →
      attemptGeocode fetch q r =
        ((attemptGeocode fetch q (r + 1)).1,
         .providerCall q r :: .retryDelay RETRY_DELAY_MS ::
           (attemptGeocode fetch q (r + 1)).2) := by
    intro r hr hf
    have hrem : MAX_RETRIES - r = (MAX_RETRIES - (r + 1)) + 1 := by omega
    show attemptGeocodeAux fetch q r (MAX_RETRIES - r) = _
    rw [hrem, attemptGeocodeAux, hf]
    rfl
  refine ⟨step, ?_, ?_⟩
  · intro h0 h1 h2
    have e2 : attemptGeocode fetch q 2 = (.found m, [.providerCall q 2]) := by
      show attemptGeocodeAux fetch q 2 (MAX_RETRIES - 2) = _
      rw [attemptGeocodeAux, h2]
      rfl
    have e1 := step 1 (by decide) h1
    have e0 := step 0 (by decide) h0
    rw [e0, e1, e2]
  · intro hall
    have e2 : attemptGeocode fetch q 2 = (.error "HTTP 503", [.providerCall q 2]) := by
      show attemptGeocodeAux fetch q 2 (MAX_RETRIES - 2) = _
      rw [attemptGeocodeAux, hall 2 (Nat.le_refl _)]
      rfl
    have e1 := step 1 (by decide) (hall 1 (by decide))
    have e0 := step 0 (by decide) (hall 0 (by decide))
    rw [e0, e1, e2]

theorem C6_transient_retry_bounded_witness :
    (attemptGeocode fetchTransientTwice "q" 0 =
      (.found sampleMatch,
       [.providerCall "q" 0, .retryDelay RETRY_DELAY_MS, .providerCall "q" 1,
        .retryDelay RETRY_DELAY_MS, .providerCall "q" 2])) ∧
    (attemptGeocode fetchAlways503 "q" 0 =
      (.error "HTTP 503",
       [.providerCall "q" 0, .retryDelay RETRY_DELAY_MS, .providerCall "q" 1,
        .retryDelay RETRY_DELAY_MS, .providerCall "q" 2])) ∧
    (attemptGeocode fetchAlways503 "q" 1 =
      ((attemptGeocode fetchAlways503 "q" 2).1,
       .providerCall "q" 1 :: .retryDelay RETRY_DELAY_MS ::
         (attemptGeocode fetchAlways503 "q" 2).2)) :=
  ⟨(C6_transient_retry_bounded fetchTransientTwice "q" [] sampleMatch []).2.1 rfl rfl rfl,
   (C6_transient_retry_bounded fetchAlways503 "q" [] sampleMatch []).2.2
     (fun _ _ => rfl),
   (C6_transient_retry_bounded fetchAlways503 "q" [] sampleMatch []).1 1
     (by decide) rfl⟩

section C7Proof

attribute [local irreducible] simplifyAddress normalizeAddress extractStreetCity
  extractCityState extractZipCode

/-- Claim C7: an ok response with an empty match array makes `attemptGeocode`
return `null` (`noMatch`) without raising; it raises only when some fetch
outcome along the way was a transport error or a non-success HTTP status,
never because of zero matches; and after a `null` on the exact query the chain
proceeds to the next strategy (the simplified query, when it differs, is sent
to the provider). -/
theorem C7_zero_matches_null_then_next_strategy (fetch : FetchEnv) (q : String)
    (r : Nat) (status : Nat) (msg : String) (address : String) :
    (fetch q r = .httpResponse status [] → httpOk status = true →
      attemptGeocode fetch q r = (.noMatch, [.providerCall q r])) ∧
    ((attemptGeocode fetch q r).1 = .error msg →
      ∃ r2, r ≤ r2 ∧ ((∃ em, fetch q r2 = .transportError em) ∨
        (∃ s d, fetch q r2 = .httpResponse s d ∧ httpOk s = false))) ∧
    ((attemptGeocode fetch (normalizeAddress address) 0).1 = .noMatch →
      simplifyAddress (normalizeAddress address) ≠ normalizeAddress address →
      GeoEvent.providerCall (simplifyAddress (normalizeAddress address)) 0 ∈
        (geocodeSingleAddress fetch address).2) := by
  refine ⟨?_, attempt_error_cause fetch q r msg, ?_⟩
  · intro hf hok
    show attemptGeocodeAux fetch q r (MAX_RETRIES - r) = _
    rw [attemptGeocodeAux, hf]
    simp [hok]
  · intro hno hne
    have hcore := geocodeSingleCore_eq_runChain fetch address
    have hsimp : simpCands (normalizeAddress address)
        (simplifyAddress (normalizeAddress address)) =
        [(simplifyAddress (normalizeAddress address), .SIMPLIFIED, some noteSimplified)] := by
      simp [simpCands, hne]
    rcases ha1 : attemptGeocode fetch (normalizeAddress address) 0 with ⟨out1, ev1⟩
    rw [ha1] at hno
    simp only at hno
    subst hno
    rcases ha2 : attemptGeocode fetch (simplifyAddress (normalizeAddress address)) 0
      with ⟨out2, ev2⟩
    have hmem : GeoEvent.providerCall (simplifyAddress (normalizeAddress address)) 0 ∈ ev2 := by
      have h := attempt_call_mem fetch (simplifyAddress (normalizeAddress address)) 0
      rw [ha2] at h
      exact h
    simp only [geocodeSingleAddress, hcore, chainCandidates, hsimp, List.cons_append,
      List.nil_append, runChain, ha1, ha2]
    cases out2 <;> simp [List.mem_append, hmem]

end C7Proof

theorem C7_zero_matches_null_then_next_strategy_witness :
    (attemptGeocode fetchEmpty "q" 0 = (.noMatch, [.providerCall "q" 0])) ∧
    (∃ r2, 0 ≤ r2 ∧ ((∃ em, fetchTransport "q" r2 = .transportError em) ∨
      (∃ s d, fetchTransport "q" r2 = .httpResponse s d ∧ httpOk s = false))) ∧
    GeoEvent.providerCall "100 Main St, Springfield" 0 ∈
      (geocodeSingleAddress fetchEmpty "100 Main St, Suite 5, Springfield").2 := by
  refine ⟨(C7_zero_matches_null_then_next_strategy fetchEmpty "q" 0 200 "" "").1 rfl rfl,
    (C7_zero_matches_null_then_next_strategy fetchTransport "q" 0 200
      "Failed to fetch" "").2.1 (by decide), ?_⟩
  have h := (C7_zero_matches_null_then_next_strategy fetchEmpty "q" 0 200 ""
    "100 Main St, Suite 5, Springfield").2.2 (by decide) (by decide)
  simpa using h

end Geocoding
